import Mathlib

/-!
Verification of the Wordle contest service (fixed-answer game, adversarial
"cheating" game, and the multiplayer room) against its natural-language
specification.  The JavaScript sources are embedded shallowly: each class
method becomes a pure Lean function; JS object mutation becomes explicit
state passing; JS `Map`s become insertion-ordered association lists; thrown
exceptions become `Except.error`; `Math.random` word selection is threaded
through an explicit `pick : Nat` oracle.  The JS scoring loops hard-code the
word length 5; game inputs are validated to be 5 characters before scoring,
and the list-recursive definitions below agree with the indexed JS loops on
such inputs.
-/

namespace Wordle

/-- Feedback mark for one letter position ('hit' / 'present' / 'miss'). -/
inductive Fb
  | hit
  | present
  | miss
deriving DecidableEq, Repr

/-- Words are sequences of characters (JS strings viewed via split('')). -/
abbrev Word := List Char

/-- Shorthand to build a `Word` from a string literal. -/
def w (s : String) : Word := s.toList

/-- First pass of the two-pass scorer (`scoreGuess`): positional equality
gives `hit`, everything else is provisionally `miss`. -/
def pass1 (guess answer : List Char) : List Fb :=
  List.zipWith (fun g a => if g = a then Fb.hit else Fb.miss) guess answer

/-- The `answerUsed` array right after the first pass: an answer index is
consumed exactly when it produced a hit. -/
def initUsed (guess answer : List Char) : List Bool :=
  List.zipWith (fun g a => decide (g = a)) guess answer

/-- `scoreGuess`'s inner second-pass scan: first answer index that is not yet
consumed and holds the wanted character (JS `for (j...) if (!answerUsed[j] &&
guessArr[i] === answerArr[j])`). -/
def findUnused : List Char → List Bool → Char → Option Nat
  | a :: as, u :: us, c =>
    if u = false ∧ a = c then some 0
    else (findUnused as us c).map (· + 1)
  | _, _, _ => none

/-- Second pass of `scoreGuess`: walk the guess positions left to right
(paired with their first-pass mark); a non-hit position takes the first
unconsumed matching answer index as `present`, else stays `miss`.  Returns
the final feedback together with the final consumption state. -/
def pass2 : List (Char × Fb) → List Char → List Bool → List Fb × List Bool
  | [], _, used => ([], used)
  | (g, f) :: rest, answer, used =>
    if f = Fb.hit then
      let r := pass2 rest answer used
      (Fb.hit :: r.1, r.2)
    else
      match findUnused answer used g with
      | some j =>
        let r := pass2 rest answer (used.set j true)
        (Fb.present :: r.1, r.2)
      | none =>
        let r := pass2 rest answer used
        (Fb.miss :: r.1, r.2)

/-- `WordleGame.scoreGuess` / `CheatingWordleGame.scoreGuess` on an
already-uppercased guess: two passes with a consume-once `answerUsed` array. -/
def scoreGuess (guess answer : List Char) : List Fb :=
  (pass2 (guess.zip (pass1 guess answer)) answer (initUsed guess answer)).1

/-- Number of `hit` entries in a feedback list. -/
def hitCount : List Fb → Nat
  | [] => 0
  | f :: fs => (if f = Fb.hit then 1 else 0) + hitCount fs

/-- Number of `present` entries in a feedback list. -/
def presentCount : List Fb → Nat
  | [] => 0
  | f :: fs => (if f = Fb.present then 1 else 0) + presentCount fs

/-- Number of positions where guess and answer agree. -/
def eqCount : List Char → List Char → Nat
  | g :: gs, a :: as => (if g = a then 1 else 0) + eqCount gs as
  | _, _ => 0

/-- Number of guess positions holding letter `c` that were marked `hit` or
`present` (feedback list aligned with the guess). -/
def markedCount (c : Char) : List Char → List Fb → Nat
  | g :: gs, f :: fs => (if g = c ∧ f ≠ Fb.miss then 1 else 0) + markedCount c gs fs
  | _, _ => 0

/-- Occurrences of letter `c` in a word. -/
def occCount (c : Char) : List Char → Nat
  | [] => 0
  | a :: as => (if a = c then 1 else 0) + occCount c as

/-- Consumed answer positions currently holding letter `c`. -/
def usedCountFor (c : Char) : List Char → List Bool → Nat
  | a :: as, u :: us => (if a = c ∧ u = true then 1 else 0) + usedCountFor c as us
  | _, _ => 0

/-- Count of pairs whose guess letter is `c` and whose mark is `hit`. -/
def hitPairCount (c : Char) : List (Char × Fb) → Nat
  | [] => 0
  | (g, f) :: rest => (if g = c ∧ f = Fb.hit then 1 else 0) + hitPairCount c rest

/-- Count of pairs whose mark is `hit`. -/
def fbHits : List (Char × Fb) → Nat
  | [] => 0
  | (_, f) :: rest => (if f = Fb.hit then 1 else 0) + fbHits rest

/-- A character in the uppercase A–Z range. -/
def isUpperAZ (c : Char) : Bool := 'A' ≤ c && c ≤ 'Z'

end Wordle

namespace Wordle

theorem hitCount_pass2 (answer : List Char) :
    ∀ (pairs : List (Char × Fb)) (used : List Bool),
      hitCount (pass2 pairs answer used).1 = fbHits pairs := by
  intro pairs
  induction pairs with
  | nil => intro used; simp [pass2, hitCount, fbHits]
  | cons p rest ih =>
    intro used
    obtain ⟨g, f⟩ := p
    by_cases hf : f = Fb.hit
    · simp [pass2, hf, hitCount, fbHits, ih]
    · simp only [pass2, if_neg hf]
      cases hfind : findUnused answer used g with
      | some j => simp [hitCount, fbHits, ih, hf]
      | none => simp [hitCount, fbHits, ih, hf]

theorem fbHits_zip_pass1 : ∀ (g a : List Char), fbHits (g.zip (pass1 g a)) = eqCount g a := by
  intro g
  induction g with
  | nil => intro a; simp [pass1, fbHits, eqCount]
  | cons x xs ih =>
    intro a
    cases a with
    | nil => simp [pass1, fbHits, eqCount]
    | cons y ys =>
      have hxy := ih ys
      by_cases h : x = y <;>
        simp [pass1, List.zip, fbHits, eqCount, h] at hxy ⊢ <;> omega

/-- The number of `hit` marks produced by the two-pass scorer equals the
number of positions where guess and answer coincide. -/
theorem hitCount_scoreGuess (g a : List Char) :
    hitCount (scoreGuess g a) = eqCount g a := by
  rw [scoreGuess, hitCount_pass2, fbHits_zip_pass1]

theorem findUnused_spec (c : Char) :
    ∀ (answer : List Char) (used : List Bool) (j : Nat),
      findUnused answer used c = some j →
      answer.get? j = some c ∧ used.get? j = some false := by
  intro answer
  induction answer with
  | nil => intro used j h; simp [findUnused] at h
  | cons a as ih =>
    intro used j h
    cases used with
    | nil => simp [findUnused] at h
    | cons u us =>
      rw [findUnused] at h
      by_cases hc : u = false ∧ a = c
      · rw [if_pos hc] at h
        simp only [Option.some.injEq] at h
        subst h
        simp [hc.1, hc.2]
      · rw [if_neg hc] at h
        cases hrec : findUnused as us c with
        | none => rw [hrec] at h; simp at h
        | some j' =>
          rw [hrec] at h
          simp only [Option.map_some', Option.some.injEq] at h
          subst h
          simpa using ih us j' hrec

theorem usedCountFor_set (c : Char) :
    ∀ (answer : List Char) (used : List Bool) (j : Nat) (d : Char),
      answer.get? j = some d → used.get? j = some false →
      usedCountFor c answer (used.set j true)
        = usedCountFor c answer used + (if d = c then 1 else 0) := by
  intro answer
  induction answer with
  | nil => intro used j d ha _; simp at ha
  | cons a as ih =>
    intro used j d ha hu
    cases used with
    | nil => simp at hu
    | cons u us =>
      cases j with
      | zero =>
        simp only [List.get?] at ha hu
        obtain rfl : a = d := by simpa using ha
        obtain rfl : u = false := by simpa using hu
        by_cases hd : a = c <;> simp [List.set, usedCountFor, hd] <;> omega
      | succ j' =>
        simp only [List.get?] at ha hu
        have := ih us j' d ha hu
        by_cases hx : a = c <;> cases u <;>
          simp [List.set, usedCountFor, hx, this] <;> omega

theorem pass2_balance (c : Char) (answer : List Char) :
    ∀ (pairs : List (Char × Fb)) (used : List Bool),
      markedCount c (pairs.map Prod.fst) (pass2 pairs answer used).1
          + usedCountFor c answer used
        = hitPairCount c pairs + usedCountFor c answer (pass2 pairs answer used).2 := by
  intro pairs
  induction pairs with
  | nil => intro used; simp [pass2, markedCount, hitPairCount]
  | cons p rest ih =>
    intro used
    obtain ⟨g, f⟩ := p
    by_cases hf : f = Fb.hit
    · subst hf
      have := ih used
      by_cases hg : g = c <;> simp [pass2, List.map_cons, markedCount, hitPairCount, hg] <;> omega
    · simp only [pass2, if_neg hf, List.map_cons]
      cases hfind : findUnused answer used g with
      | some j =>
        obtain ⟨haj, huj⟩ := findUnused_spec g answer used j hfind
        have hset := usedCountFor_set c answer used j g haj huj
        have hih := ih (used.set j true)
        by_cases hg : g = c
        · simp only [hg] at hset
          simp [markedCount, hitPairCount, hf, hg] at hset hih ⊢
          omega
        · simp [hg] at hset
          simp [markedCount, hitPairCount, hf, hg] at hih ⊢
          omega
      | none =>
        have := ih used
        by_cases hg : g = c <;> simp [markedCount, hitPairCount, hg, hf] <;> omega

theorem hitPairCount_zip_pass1 (c : Char) :
    ∀ (g a : List Char),
      hitPairCount c (g.zip (pass1 g a)) = usedCountFor c a (initUsed g a) := by
  intro g
  induction g with
  | nil => intro a; simp [pass1, initUsed, hitPairCount, usedCountFor]
  | cons x xs ih =>
    intro a
    cases a with
    | nil => simp [pass1, initUsed, hitPairCount, usedCountFor]
    | cons y ys =>
      have hxy := ih ys
      by_cases h : x = y
      · subst h
        by_cases hc : x = c <;>
          simp [pass1, initUsed, List.zip, hitPairCount, usedCountFor, hc] at hxy ⊢ <;> omega
      · have h' : y ≠ x := fun hyx => h hyx.symm
        simp [pass1, initUsed, List.zip, hitPairCount, usedCountFor, h, h'] at hxy ⊢
        omega

theorem usedCountFor_le_occ (c : Char) :
    ∀ (a : List Char) (u : List Bool), usedCountFor c a u ≤ occCount c a := by
  intro a
  induction a with
  | nil => intro u; simp [usedCountFor, occCount]
  | cons x xs ih =>
    intro u
    cases u with
    | nil => simp [usedCountFor, occCount]
    | cons b bs =>
      have := ih bs
      by_cases hx : x = c <;> cases b <;> simp [usedCountFor, occCount, hx] <;> omega

/-- The consume-once discipline never over-credits a letter: the marked
(guess) positions of letter `c` consume pairwise-distinct answer positions
holding `c`. -/
theorem markedCount_scoreGuess_le (c : Char) (g a : List Char) (hlen : g.length ≤ a.length) :
    markedCount c g (scoreGuess g a) ≤ occCount c a := by
  have hpl : g.length ≤ (pass1 g a).length := by
    simp only [pass1, List.length_zipWith]
    omega
  have hmap : (g.zip (pass1 g a)).map Prod.fst = g := List.map_fst_zip _ _ hpl
  have hb := pass2_balance c a (g.zip (pass1 g a)) (initUsed g a)
  rw [hmap] at hb
  have h7 := hitPairCount_zip_pass1 c g a
  have h8 := usedCountFor_le_occ c a (pass2 (g.zip (pass1 g a)) a (initUsed g a)).2
  rw [scoreGuess]
  omega

end Wordle

namespace Wordle

/-- C1: For every guess/answer pair of 5-letter uppercase words, the feedback
returned by the two-pass scorer (`scoreGuess`) has hit-count equal to the
number of index-wise equal characters, and for every letter the combined
count of `hit` and `present` entries for that letter never exceeds that
letter's occurrence count in the answer. -/
theorem claimC1 (g a : List Char)
    (hg : g.length = 5) (ha : a.length = 5)
    (hgu : g.all isUpperAZ = true) (hau : a.all isUpperAZ = true) :
    hitCount (scoreGuess g a) = eqCount g a ∧
    ∀ c : Char, markedCount c g (scoreGuess g a) ≤ occCount c a :=
  ⟨hitCount_scoreGuess g a, fun c => markedCount_scoreGuess_le c g a (by omega)⟩

/-- Witness for C1 at the duplicate-letter pair guess `SPEED`, answer `ERASE`. -/
theorem claimC1_witness :
    hitCount (scoreGuess (w "SPEED") (w "ERASE")) = eqCount (w "SPEED") (w "ERASE") ∧
    ∀ c : Char, markedCount c (w "SPEED") (scoreGuess (w "SPEED") (w "ERASE"))
      ≤ occCount c (w "ERASE") :=
  claimC1 (w "SPEED") (w "ERASE") (by decide) (by decide) (by decide) (by decide)

/-- Game status of a single (fixed-answer or adversarial) game. -/
inductive GStatus
  | inProgress
  | win
  | lose
deriving DecidableEq, Repr

/-- The result object returned by `makeGuess` (fields that a given return
path does not mention in JS are `none`). -/
structure GuessResult where
  valid : Bool
  reason : Option String := none
  status : Option GStatus := none
  feedback : Option (List Fb) := none
  guesses : Option (List (Word × List Fb)) := none
  roundsLeft : Option Int := none
  answer : Option Word := none
  candidatesCount : Option Nat := none
  remainingCandidates : Option (List Word) := none
deriving DecidableEq, Repr

/-- `validateGuess` (identical in `WordleGame` and `CheatingWordleGame`):
uppercase, then require exactly 5 characters from A–Z.  `some reason`
models an invalid result. -/
def validateGuess (guess : List Char) : Option String :=
  let word := guess.map Char.toUpper
  if word.length ≠ 5 then some "Guess must be 5 letters"
  else if !word.all isUpperAZ then some "Guess must be A-Z only"
  else none

/-- `CheatingWordleGame.matchesFeedback`: positionwise check of a candidate
against a shown feedback.  The JS loop hard-codes i = 0..4; out-of-range
indexing (`undefined`) is modelled by `Option` equality, and
`includes(undefined)` is `false`. -/
def matchesFeedback (candidate guess : List Char) (feedback : List Fb) : Bool :=
  (List.range 5).all (fun i =>
    match feedback.get? i with
    | some Fb.hit => candidate.get? i == guess.get? i
    | some Fb.present =>
        !(candidate.get? i == guess.get? i) &&
        (match guess.get? i with
         | some gc => candidate.contains gc
         | none => false)
    | some Fb.miss =>
        (match guess.get? i with
         | some gc => !(candidate.contains gc)
         | none => true)
    | none => true)

/-- The (hits, presents) pair used to rank candidates; ascending = worse. -/
structure CandidateScore where
  hits : Nat
  presents : Nat
deriving DecidableEq, Repr

/-- hits loop of `calculateScore`: positional matches over i = 0..4. -/
def csHits (candidate guess : List Char) : Nat :=
  (List.range 5).countP (fun i => candidate.get? i == guess.get? i)

/-- Inner j-scan of `calculateScore`'s presents loop: first index j ≠ i, not
yet consumed, with `candidateArr[j] === guessArr[i]`. -/
def scanJ (candidate : List Char) (used : List Nat) (i : Nat) (gi : Option Char) :
    List Nat → Option Nat
  | [] => none
  | j :: js =>
    if i ≠ j ∧ j ∉ used ∧ candidate.get? j = gi then some j
    else scanJ candidate used i gi js

/-- Presents loop of `calculateScore`: for each non-hit guess position take
the first matching not-yet-used candidate position (note: positions that
were hits are *not* pre-marked as used). -/
def presentsLoop (candidate guess : List Char) : List Nat → List Nat → Nat → Nat
  | [], _, acc => acc
  | i :: is, used, acc =>
    if candidate.get? i = guess.get? i then presentsLoop candidate guess is used acc
    else
      match scanJ candidate used i (guess.get? i) (List.range 5) with
      | some j => presentsLoop candidate guess is (j :: used) (acc + 1)
      | none => presentsLoop candidate guess is used acc

/-- `CheatingWordleGame.calculateScore`. -/
def calculateScore (candidate guess : List Char) : CandidateScore :=
  { hits := csHits candidate guess,
    presents := presentsLoop candidate guess (List.range 5) [] 0 }

/-- `CheatingWordleGame.isWorseScore`: strictly fewer hits, or equal hits and
strictly fewer presents. -/
def isWorseScore (s1 s2 : CandidateScore) : Bool :=
  decide (s1.hits < s2.hits) ||
    (decide (s1.hits = s2.hits) && decide (s1.presents < s2.presents))

/-- `CheatingWordleGame.selectWorstAnswer`: running minimum over the
candidate list (strict improvement only, so the first minimum is kept);
`none` models the JS `null` returned for an empty candidate list. -/
def selectWorstAnswer (candidates : List Word) (guess : Word) : Option Word :=
  match candidates with
  | [] => none
  | c0 :: _ =>
    some ((candidates.foldl
      (fun acc c =>
        let score := calculateScore c guess
        if isWorseScore score acc.2 then (c, score) else acc)
      (c0, calculateScore c0 guess)).1)

/-- State of `CheatingWordleGame`.  `answer` models the JS dynamic `.answer`
property that `MultiplayerGame` assigns onto cheating game instances; the
class's own methods never read it. -/
structure CheatingGame where
  wordList : List Word
  maxRounds : Nat
  candidates : List Word
  guesses : List (Word × List Fb)
  status : GStatus
  currentAnswer : Option Word
  answer : Option Word
deriving DecidableEq, Repr

/-- `new CheatingWordleGame(wordList, maxRounds)`: uppercases the word list,
starts with every word as a candidate; throws on an empty list. -/
def CheatingGame.new (wordList : List Word) (maxRounds : Nat) :
    Except String CheatingGame :=
  if wordList.length = 0 then .error "Word list must be a non-empty array"
  else
    let wl := wordList.map (List.map Char.toUpper)
    .ok { wordList := wl, maxRounds := maxRounds, candidates := wl, guesses := [],
          status := .inProgress, currentAnswer := none, answer := none }

/-- `CheatingWordleGame.makeGuess`: select the worst candidate as the current
answer (note: the *raw* guess is passed to `selectWorstAnswer` and to the
candidate filter, while scoring and storage use the uppercased guess), score,
narrow the candidate set by `matchesFeedback`, update status.  The
`Except.error` models the JS `TypeError` thrown by `scoreGuess` when
`currentAnswer` is `null` (empty candidate set). -/
def CheatingGame.makeGuess (g : CheatingGame) (guess : List Char) :
    Except String (CheatingGame × GuessResult) :=
  if g.status ≠ .inProgress then
    .ok (g, { valid := false, reason := some "Game is over", status := some g.status })
  else
    match validateGuess guess with
    | some reason => .ok (g, { valid := false, reason := some reason })
    | none =>
      match selectWorstAnswer g.candidates guess with
      | none => .error "TypeError: Cannot read properties of null (reading 'split')"
      | some ans =>
        let word := guess.map Char.toUpper
        let feedback := scoreGuess word ans
        let candidates' := g.candidates.filter (fun c => matchesFeedback c guess feedback)
        let guesses' := g.guesses ++ [(word, feedback)]
        let status' := if word = ans then GStatus.win
                       else if guesses'.length ≥ g.maxRounds then GStatus.lose
                       else GStatus.inProgress
        let g' := { g with
                    currentAnswer := some ans
                    candidates := candidates'
                    guesses := guesses'
                    status := status' }
        .ok (g', { valid := true, feedback := some feedback, guesses := some guesses',
                   status := some status',
                   roundsLeft := some ((g.maxRounds : Int) - (guesses'.length : Int)),
                   answer := if status' ≠ .inProgress then some ans else none,
                   candidatesCount := some candidates'.length,
                   remainingCandidates := if status' ≠ .inProgress then some candidates'
                                          else none })

end Wordle

namespace Wordle

theorem csHits_eq_eqCount :
    ∀ (n : Nat) (c g : List Char), c.length = n → g.length = n →
      (List.range n).countP (fun i => c.get? i == g.get? i) = eqCount g c := by
  intro n
  induction n with
  | zero =>
    intro c g hc hg
    rw [List.length_eq_zero] at hc hg
    subst hc; subst hg
    simp [eqCount]
  | succ n ih =>
    intro c g hc hg
    cases c with
    | nil => simp at hc
    | cons x xs =>
      cases g with
      | nil => simp at hg
      | cons y ys =>
        have hcs : xs.length = n := by simpa using hc
        have hgs : ys.length = n := by simpa using hg
        have htail := ih xs ys hcs hgs
        rw [List.range_succ_eq_map, List.countP_cons, List.countP_map]
        by_cases hxy : x = y
        · simp [Function.comp_def, Nat.succ_eq_add_one, List.getElem?_cons_succ,
            List.get?_eq_getElem?, eqCount, hxy] at htail ⊢
          omega
        · have hyx : ¬y = x := fun hh => hxy hh.symm
          simp [Function.comp_def, Nat.succ_eq_add_one, List.getElem?_cons_succ,
            List.get?_eq_getElem?, eqCount, hxy, hyx] at htail ⊢
          omega

end Wordle

namespace Wordle

/-- C3 (amended): for every 5-letter candidate and guess, the `hits`
component of `calculateScore` equals the number of `hit` entries in the
two-pass feedback of the guess against that candidate; the `presents`
component is computed by consume-once matching over *all* candidate
positions rather than only non-hit ones, so it can exceed the feedback's
`present` count. -/
theorem claimC3_amended (candidate guess : List Char)
    (hc : candidate.length = 5) (hg : guess.length = 5) :
    (calculateScore candidate guess).hits = hitCount (scoreGuess guess candidate) := by
  rw [hitCount_scoreGuess]
  exact csHits_eq_eqCount 5 candidate guess hc hg

/-- Witness for the amended C3 at candidate `CRANE`, guess `TRACE`. -/
theorem claimC3_witness :
    (calculateScore (w "CRANE") (w "TRACE")).hits
      = hitCount (scoreGuess (w "TRACE") (w "CRANE")) :=
  claimC3_amended (w "CRANE") (w "TRACE") (by decide) (by decide)

/-- C3 counterexample: candidate `ABBBB`, guess `AACCC`.  `calculateScore`
gives (1 hit, 1 present) — the second guess `A` consumes the candidate's
hit position 0 — while the two-pass feedback has 1 hit and 0 presents. -/
theorem claimC3_counterexample :
    calculateScore (w "ABBBB") (w "AACCC") = ⟨1, 1⟩ ∧
    hitCount (scoreGuess (w "AACCC") (w "ABBBB")) = 1 ∧
    presentCount (scoreGuess (w "AACCC") (w "ABBBB")) = 0 ∧
    (calculateScore (w "ABBBB") (w "AACCC")).presents
      ≠ presentCount (scoreGuess (w "AACCC") (w "ABBBB")) := by
  decide

theorem isWorseScore_trans {s t u : CandidateScore} :
    isWorseScore s t = true → isWorseScore t u = true → isWorseScore s u = true := by
  obtain ⟨a, b⟩ := s; obtain ⟨c, d⟩ := t; obtain ⟨e, f⟩ := u
  simp only [isWorseScore, Bool.or_eq_true, Bool.and_eq_true, decide_eq_true_eq]
  omega

theorem isWorseScore_no_skip {s a r : CandidateScore} :
    isWorseScore s r = true → isWorseScore s a = false → isWorseScore a r = false →
    False := by
  obtain ⟨x1, y1⟩ := s; obtain ⟨x2, y2⟩ := a; obtain ⟨x3, y3⟩ := r
  simp only [isWorseScore, Bool.or_eq_true, Bool.and_eq_true, decide_eq_true_eq,
    Bool.or_eq_false_iff, Bool.and_eq_false_iff, decide_eq_false_iff_not]
  omega

theorem isWorseScore_lt_of_lt_of_not_lt {r a s : CandidateScore} :
    isWorseScore r a = true → isWorseScore s a = false → isWorseScore r s = true := by
  obtain ⟨x1, y1⟩ := r; obtain ⟨x2, y2⟩ := a; obtain ⟨x3, y3⟩ := s
  simp only [isWorseScore, Bool.or_eq_true, Bool.and_eq_true, decide_eq_true_eq,
    Bool.or_eq_false_iff, Bool.and_eq_false_iff, decide_eq_false_iff_not]
  omega

/-- Specification of the running-minimum fold inside `selectWorstAnswer`:
the final accumulator carries its own score, its score is a lower bound for
the initial accumulator and every scanned candidate, and the result is either
the untouched initial accumulator or the first scanned candidate achieving
the final (strictly improved) score. -/
theorem selectWorst_foldl_spec (guess : Word) :
    ∀ (l : List Word) (acc : Word × CandidateScore),
      acc.2 = calculateScore acc.1 guess →
      (l.foldl (fun acc c =>
          let score := calculateScore c guess
          if isWorseScore score acc.2 then (c, score) else acc) acc).2
        = calculateScore (l.foldl (fun acc c =>
          let score := calculateScore c guess
          if isWorseScore score acc.2 then (c, score) else acc) acc).1 guess ∧
      (∀ r, r = l.foldl (fun acc c =>
          let score := calculateScore c guess
          if isWorseScore score acc.2 then (c, score) else acc) acc →
        isWorseScore acc.2 r.2 = false ∧
        (∀ c ∈ l, isWorseScore (calculateScore c guess) r.2 = false) ∧
        (r = acc ∨ (∃ pre post, l = pre ++ r.1 :: post ∧
           isWorseScore r.2 acc.2 = true ∧
           ∀ c ∈ pre, isWorseScore r.2 (calculateScore c guess) = true))) := by
  intro l
  induction l with
  | nil =>
    intro acc hacc
    refine ⟨hacc, fun r hr => ?_⟩
    subst hr
    refine ⟨?_, by simp, Or.inl rfl⟩
    simp [isWorseScore]
  | cons x xs ih =>
    intro acc hacc
    by_cases hx : isWorseScore (calculateScore x guess) acc.2 = true
    · have hstep : (x :: xs).foldl (fun acc c =>
          let score := calculateScore c guess
          if isWorseScore score acc.2 then (c, score) else acc) acc
          = xs.foldl (fun acc c =>
          let score := calculateScore c guess
          if isWorseScore score acc.2 then (c, score) else acc)
            (x, calculateScore x guess) := by
        simp [List.foldl_cons, hx]
      obtain ⟨ih1, ih2⟩ := ih (x, calculateScore x guess) rfl
      rw [hstep]
      refine ⟨ih1, fun r hr => ?_⟩
      obtain ⟨ha, hb, hc⟩ := ih2 r hr
      refine ⟨?_, ?_, ?_⟩
      · cases hcon : isWorseScore acc.2 r.2 with
        | false => rfl
        | true =>
          exact absurd (isWorseScore_trans hx hcon) (by simp [ha])
      · intro c hcmem
        rcases List.mem_cons.mp hcmem with hcx | hcxs
        · subst hcx; exact ha
        · exact hb c hcxs
      · rcases hc with hacc' | ⟨pre, post, hl, hw, hpre⟩
        · refine Or.inr ⟨[], xs, ?_, ?_, by simp⟩
          · simp [hacc']
          · rw [hacc']; exact hx
        · refine Or.inr ⟨x :: pre, post, by simp [hl], isWorseScore_trans hw hx, ?_⟩
          intro c hcmem
          rcases List.mem_cons.mp hcmem with hcx | hcpre
          · subst hcx; exact hw
          · exact hpre c hcpre
    · have hx' : isWorseScore (calculateScore x guess) acc.2 = false :=
        Bool.not_eq_true _ ▸ (by simpa using hx)
      have hstep : (x :: xs).foldl (fun acc c =>
          let score := calculateScore c guess
          if isWorseScore score acc.2 then (c, score) else acc) acc
          = xs.foldl (fun acc c =>
          let score := calculateScore c guess
          if isWorseScore score acc.2 then (c, score) else acc) acc := by
        simp [List.foldl_cons, hx']
      obtain ⟨ih1, ih2⟩ := ih acc hacc
      rw [hstep]
      refine ⟨ih1, fun r hr => ?_⟩
      obtain ⟨ha, hb, hc⟩ := ih2 r hr
      refine ⟨ha, ?_, ?_⟩
      · intro c hcmem
        rcases List.mem_cons.mp hcmem with hcx | hcxs
        · subst hcx
          cases hcon : isWorseScore (calculateScore c guess) r.2 with
          | false => rfl
          | true => exact (isWorseScore_no_skip hcon hx' ha).elim
        · exact hb c hcxs
      · rcases hc with hacc' | ⟨pre, post, hl, hw, hpre⟩
        · exact Or.inl hacc'
        · refine Or.inr ⟨x :: pre, post, by simp [hl], hw, ?_⟩
          intro c hcmem
          rcases List.mem_cons.mp hcmem with hcx | hcpre
          · subst hcx; exact isWorseScore_lt_of_lt_of_not_lt hw hx'
          · exact hpre c hcpre

end Wordle

namespace Wordle

/-- C4 (amended): for every non-empty candidate set, `selectWorstAnswer`
returns a candidate whose (hits, presents) score is minimal (no remaining
candidate scores strictly worse against that guess); when several candidates
share the minimal score it returns the one occurring *first in the candidate
list* (candidate-list order, not alphabetical order). -/
theorem claimC4_amended (candidates : List Word) (guess : Word) (h : candidates ≠ []) :
    ∃ wc, selectWorstAnswer candidates guess = some wc ∧ wc ∈ candidates ∧
      (∀ c ∈ candidates, isWorseScore (calculateScore c guess) (calculateScore wc guess) = false) ∧
      ∃ pre post, candidates = pre ++ wc :: post ∧
        ∀ c ∈ pre, isWorseScore (calculateScore wc guess) (calculateScore c guess) = true := by
  match candidates, h with
  | c0 :: rest, _ =>
    obtain ⟨h1, h2⟩ := selectWorst_foldl_spec guess (c0 :: rest) (c0, calculateScore c0 guess) rfl
    set r := (c0 :: rest).foldl (fun acc c =>
        let score := calculateScore c guess
        if isWorseScore score acc.2 then (c, score) else acc)
      (c0, calculateScore c0 guess) with hr
    obtain ⟨_, hb, hc⟩ := h2 r hr
    refine ⟨r.1, ?_, ?_, ?_, ?_⟩
    · simp only [selectWorstAnswer]
    · rcases hc with hacc | ⟨pre, post, hl, _, _⟩
      · rw [hacc]; exact List.mem_cons_self c0 rest
      · rw [hl]; exact List.mem_append_right pre (List.mem_cons_self _ _)
    · intro c hcmem
      have hworse := hb c hcmem
      rw [h1] at hworse
      exact hworse
    · rcases hc with hacc | ⟨pre, post, hl, _, hpre⟩
      · refine ⟨[], rest, by simp [hacc], by simp⟩
      · refine ⟨pre, post, hl, ?_⟩
        intro c hcmem
        have hworse := hpre c hcmem
        rw [h1] at hworse
        exact hworse

/-- Witness for the amended C4 on the spec's word list with guess `HELLO`. -/
theorem claimC4_witness :
    ∃ wc, selectWorstAnswer [w "HELLO", w "WORLD", w "QUITE", w "FANCY"] (w "HELLO") = some wc ∧
      wc ∈ [w "HELLO", w "WORLD", w "QUITE", w "FANCY"] ∧
      (∀ c ∈ [w "HELLO", w "WORLD", w "QUITE", w "FANCY"],
        isWorseScore (calculateScore c (w "HELLO")) (calculateScore wc (w "HELLO")) = false) ∧
      ∃ pre post, [w "HELLO", w "WORLD", w "QUITE", w "FANCY"] = pre ++ wc :: post ∧
        ∀ c ∈ pre, isWorseScore (calculateScore wc (w "HELLO")) (calculateScore c (w "HELLO")) = true :=
  claimC4_amended [w "HELLO", w "WORLD", w "QUITE", w "FANCY"] (w "HELLO") (by decide)

/-- Strict alphabetical (lexicographic) order on words. -/
def wordLt : List Char → List Char → Bool
  | _, [] => false
  | [], _ :: _ => true
  | a :: as, b :: bs => if a < b then true else if b < a then false else wordLt as bs

/-- C4 counterexample: with candidates `[BBBBB, AAAAA]` and guess `CCCCC`
both candidates score (0,0), yet `selectWorstAnswer` returns `BBBBB` — the
first of the list — although `AAAAA` is alphabetically smaller. -/
theorem claimC4_counterexample :
    selectWorstAnswer [w "BBBBB", w "AAAAA"] (w "CCCCC") = some (w "BBBBB") ∧
    (w "AAAAA") ∈ [w "BBBBB", w "AAAAA"] ∧
    calculateScore (w "AAAAA") (w "CCCCC") = calculateScore (w "BBBBB") (w "CCCCC") ∧
    wordLt (w "AAAAA") (w "BBBBB") = true := by
  decide

/-- Equality of `Except` values is decidable when both components' are. -/
instance {ε α : Type} [DecidableEq ε] [DecidableEq α] : DecidableEq (Except ε α) := fun a b =>
  match a, b with
  | .ok x, .ok y => decidable_of_iff (x = y) (by simp)
  | .ok _, .error _ => isFalse (fun hc => Except.noConfusion hc)
  | .error _, .ok _ => isFalse (fun hc => Except.noConfusion hc)
  | .error e, .error f => decidable_of_iff (e = f) (by simp)

/-- C2 (code bug): narrowing by `matchesFeedback` removes the candidate
`AXYZW` that `selectWorstAnswer` just returned for the duplicate-letter
guess `AABBB` — the second `A` of the guess scores `miss` while `AXYZW`
still contains an `A`, so the `miss` clause of `matchesFeedback` rejects it
and the candidate set is emptied, contradicting the spec's invariant. -/
theorem claimC2_bug :
    selectWorstAnswer [w "AXYZW"] (w "AABBB") = some (w "AXYZW") ∧
    scoreGuess (w "AABBB") (w "AXYZW") = [.hit, .miss, .miss, .miss, .miss] ∧
    matchesFeedback (w "AXYZW") (w "AABBB") (scoreGuess (w "AABBB") (w "AXYZW")) = false ∧
    ((CheatingGame.new [w "AXYZW"] 6).bind (fun g => (g.makeGuess (w "AABBB")).map
        (fun p => (p.1.candidates, p.1.currentAnswer, p.1.status))))
      = .ok ([], some (w "AXYZW"), .inProgress) := by
  decide

/-- C9 (code bug): the empty-candidate branch of `selectWorstAnswer` is
reachable with the game still `IN_PROGRESS`; the next valid guess then
dereferences the `null` `currentAnswer` inside `scoreGuess` (a `TypeError`). -/
theorem claimC9_bug :
    ((CheatingGame.new [w "AXYZW"] 6).bind (fun g => (g.makeGuess (w "AABBB")).map
        (fun p => (p.1.candidates, p.1.status)))) = .ok ([], .inProgress) ∧
    ((CheatingGame.new [w "AXYZW"] 6).bind (fun g => (g.makeGuess (w "AABBB")).bind
        (fun p => p.1.makeGuess (w "AABBB"))))
      = .error "TypeError: Cannot read properties of null (reading 'split')" := by
  decide

/-- C10 (code bug): the adversarial `makeGuess` passes the *raw* guess to
`selectWorstAnswer` and to the candidate filter, so a lowercase guess is
scored (0,0) against every candidate — the first candidate `HELLO` is
selected — and `"hello"` wins instantly with all-hit feedback, while the
uppercased `"HELLO"` selects `FANCY` and gets all-miss feedback. -/
theorem claimC10_bug :
    (w "hello").map Char.toUpper = w "HELLO" ∧
    ((CheatingGame.new [w "HELLO", w "WORLD", w "QUITE", w "FANCY"] 6).bind
        (fun g => (g.makeGuess (w "hello")).map (fun p => (p.2.status, p.2.feedback))))
      = .ok (some .win, some [.hit, .hit, .hit, .hit, .hit]) ∧
    ((CheatingGame.new [w "HELLO", w "WORLD", w "QUITE", w "FANCY"] 6).bind
        (fun g => (g.makeGuess (w "HELLO")).map (fun p => (p.2.status, p.2.feedback))))
      = .ok (some .inProgress, some [.miss, .miss, .miss, .miss, .miss]) := by
  decide

end Wordle

namespace Wordle

/-- Player status inside a room. -/
inductive PStatus
  | ready
  | playing
  | finished
  | disconnected
deriving DecidableEq, Repr

/-- Room lifecycle state. -/
inductive RState
  | waiting
  | playing
  | finished
deriving DecidableEq, Repr

/-- Game mode of a room (`GameFactory` throws on any other mode string). -/
inductive GameMode
  | normal
  | cheating
deriving DecidableEq, Repr

/-- State of the fixed-answer `WordleGame`. -/
structure NormalGame where
  wordList : List Word
  maxRounds : Nat
  answer : Word
  guesses : List (Word × List Fb)
  status : GStatus
deriving DecidableEq, Repr

/-- `new WordleGame(wordList, maxRounds, answer)`: uppercases the word list;
a `none` answer picks a random word, modelled by the oracle index `pick`
(JS `Math.floor(Math.random() * length)`, always in range). -/
def NormalGame.new (wordList : List Word) (maxRounds : Nat) (answer? : Option Word)
    (pick : Nat) : Except String NormalGame :=
  if wordList.length = 0 then .error "Word list must be a non-empty array"
  else
    let wl := wordList.map (List.map Char.toUpper)
    .ok { wordList := wl, maxRounds := maxRounds,
          answer := match answer? with
            | some a => a.map Char.toUpper
            | none => wl.getD (pick % wl.length) [],
          guesses := [], status := .inProgress }

/-- `WordleGame.makeGuess`: validate, score against the fixed answer, append
the uppercased guess, flip to WIN/LOSE when warranted. -/
def NormalGame.makeGuess (g : NormalGame) (guess : List Char) :
    NormalGame × GuessResult :=
  if g.status ≠ .inProgress then
    (g, { valid := false, reason := some "Game is over", status := some g.status })
  else
    match validateGuess guess with
    | some reason => (g, { valid := false, reason := some reason })
    | none =>
      let word := guess.map Char.toUpper
      let feedback := scoreGuess word g.answer
      let guesses' := g.guesses ++ [(word, feedback)]
      let status' := if word = g.answer then GStatus.win
                     else if guesses'.length ≥ g.maxRounds then GStatus.lose
                     else GStatus.inProgress
      let g' := { g with guesses := guesses', status := status' }
      (g', { valid := true, feedback := some feedback, guesses := some guesses',
             status := some status',
             roundsLeft := some ((g.maxRounds : Int) - (guesses'.length : Int)),
             answer := if status' ≠ .inProgress then some g.answer else none })

/-- A per-player game instance held by a room: fixed-answer or adversarial. -/
inductive GameInst
  | normal (g : NormalGame)
  | cheating (g : CheatingGame)
deriving DecidableEq, Repr

/-- `GameFactory.createGame(mode, wordList, maxRounds)` with a `null` answer. -/
def createGame (mode : GameMode) (wordList : List Word) (maxRounds pick : Nat) :
    Except String GameInst :=
  match mode with
  | .normal => (NormalGame.new wordList maxRounds none pick).map GameInst.normal
  | .cheating => (CheatingGame.new wordList maxRounds).map GameInst.cheating

/-- Reading the JS `.answer` property of a game instance: a `WordleGame` has
one; on a `CheatingWordleGame` it is the dynamic property (usually absent,
i.e. `undefined`, modelled as `none`). -/
def GameInst.answerField : GameInst → Option Word
  | .normal g => some g.answer
  | .cheating g => g.answer

/-- The assignment `individualGame.answer = sharedGame.answer` performed by
the room.  The shared and individual games always have the room's single
`gameMode`, so a `normal` instance always receives `some` word (the
`normal`/`none` case is unreachable there and keeps the game unchanged),
and a `cheating` instance just stores the (undefined) value in its dead
dynamic property. -/
def GameInst.assignAnswerField : GameInst → Option Word → GameInst
  | .normal g, some a => .normal { g with answer := a }
  | .normal g, none => .normal g
  | .cheating g, a? => .cheating { g with answer := a? }

/-- `makeGuess` dispatched on the game kind. -/
def GameInst.makeGuess : GameInst → List Char → Except String (GameInst × GuessResult)
  | .normal g, guess =>
    let p := g.makeGuess guess
    .ok (.normal p.1, p.2)
  | .cheating g, guess => (g.makeGuess guess).map (fun p => (GameInst.cheating p.1, p.2))

/-- One entry of a player's per-round guess log. -/
structure RoomGuess where
  guess : Word
  feedback : Option (List Fb)
  round : Nat
deriving DecidableEq, Repr

/-- A player's record in the registry. -/
structure Player where
  id : String
  name : String
  score : Nat
  guesses : List RoomGuess
  status : PStatus
  joinedAt : Nat
  isHost : Bool
  readyForNextRound : Bool
  lastSeen : Nat
deriving DecidableEq, Repr

/-- Lookup in an insertion-ordered association list (JS `Map.get`). -/
def alistGet {α : Type} (m : List (String × α)) (k : String) : Option α :=
  (m.find? (fun e => decide (e.1 = k))).map (fun e => e.2)

/-- JS `Map.set`: replace in place when the key exists, else append. -/
def alistSet {α : Type} (m : List (String × α)) (k : String) (v : α) :
    List (String × α) :=
  if m.any (fun e => decide (e.1 = k)) then
    m.map (fun e => if e.1 = k then (k, v) else e)
  else m ++ [(k, v)]

/-- JS `Map.delete`. -/
def alistDelete {α : Type} (m : List (String × α)) (k : String) :
    List (String × α) :=
  m.filter (fun e => decide (e.1 ≠ k))

/-- In-place mutation of the entry for key `k` (JS object-reference update). -/
def alistUpdate {α : Type} (m : List (String × α)) (k : String) (f : α → α) :
    List (String × α) :=
  m.map (fun e => if e.1 = k then (e.1, f e.2) else e)

/-- State of `MultiplayerGame` (one room). -/
structure Room where
  roomId : String
  maxPlayers : Nat
  gameMode : GameMode
  players : List (String × Player)
  socketToPlayer : List (String × String)
  gameState : RState
  currentRound : Nat
  sharedGame : Option GameInst
  playerGames : List (String × GameInst)
  wordList : List Word
  createdAt : Nat
  lastActivity : Nat
deriving DecidableEq, Repr

/-- The constructor's hard-coded word list (note the raw `vGY` entry,
uppercased only inside the game constructors). -/
def defaultWordList : List Word :=
  [w "HELLO", w "WORLD", w "QUITE", w "FANCY", w "FRESH",
   w "PANIC", w "CRAZY", w "vGY", w "HAPPY", w "SMILE"]

/-- `new MultiplayerGame(roomId, maxPlayers, gameMode)`. -/
def Room.new (roomId : String) (maxPlayers : Nat) (gameMode : GameMode) (now : Nat) :
    Room :=
  { roomId := roomId, maxPlayers := maxPlayers, gameMode := gameMode,
    players := [], socketToPlayer := [], gameState := .waiting, currentRound := 0,
    sharedGame := none, playerGames := [], wordList := defaultWordList,
    createdAt := now, lastActivity := now }

/-- `MultiplayerGame.addPlayer`: reject full or started rooms, else append a
player (first joiner becomes host) and bind the socket.  The generated
persistent id (`Date.now()` + random suffix) is supplied as `freshPid`. -/
def addPlayer (room : Room) (socketId playerName freshPid : String) (now : Nat) :
    Except String (Room × Player) :=
  if room.players.length ≥ room.maxPlayers then .error "Room is full"
  else if room.gameState ≠ .waiting then .error "Game already in progress"
  else
    let player : Player :=
      { id := freshPid, name := playerName, score := 0, guesses := [],
        status := .ready, joinedAt := now, isHost := room.players.length = 0,
        readyForNextRound := false, lastSeen := now }
    .ok ({ room with
           players := alistSet room.players freshPid player
           socketToPlayer := alistSet room.socketToPlayer socketId freshPid
           lastActivity := now }, player)

/-- `MultiplayerGame.getPlayerBySocketId`. -/
def getPlayerBySocketId (room : Room) (socketId : String) : Option (String × Player) :=
  match alistGet room.socketToPlayer socketId with
  | none => none
  | some pid => (alistGet room.players pid).map (fun p => (pid, p))

/-- `MultiplayerGame.calculateScore`: points for a win as a function of the
number of guesses used (100, 80, ..., floor 10). -/
def calculateScorePoints (guessesUsed : Nat) : Nat :=
  max (100 - (guessesUsed - 1) * 20) 10

/-- `MultiplayerGame.startGame`: require two players and a WAITING room,
create the shared game and one individual game per non-disconnected player,
copy the shared `.answer` onto each, and reset the active players.  All
individual instances are created by the same factory call with their initial
answers immediately overwritten, so a single `proto` value stands for each
of them. -/
def startGame (room : Room) (pick now : Nat) : Except String Room :=
  if room.players.length < 2 then .error "Need at least 2 players to start"
  else if room.gameState ≠ .waiting then .error "Game already in progress"
  else
    match createGame room.gameMode room.wordList 6 pick with
    | .error e => .error e
    | .ok shared =>
      match createGame room.gameMode room.wordList 6 pick with
      | .error e => .error e
      | .ok proto =>
        let indiv := proto.assignAnswerField shared.answerField
        let actives := room.players.filter (fun e => decide (e.2.status ≠ .disconnected))
        .ok { room with
              gameState := .playing
              currentRound := 1
              sharedGame := some shared
              playerGames := actives.map (fun e => (e.1, indiv))
              players := room.players.map (fun e =>
                if e.2.status ≠ .disconnected then
                  (e.1, { e.2 with guesses := [], status := .playing, score := 0 })
                else e)
              lastActivity := now }

/-- `MultiplayerGame.endGame`: mark the room FINISHED (final rankings are a
pure read of the player list). -/
def endGame (room : Room) (now : Nat) : Room :=
  { room with gameState := .finished, lastActivity := now }

/-- `MultiplayerGame.startNewRound`: bump the round counter, fresh shared
and per-player games over the same answer, reset active players but keep
their cumulative scores. -/
def startNewRound (room : Room) (pick now : Nat) : Except String Room :=
  match createGame room.gameMode room.wordList 6 pick with
  | .error e => .error e
  | .ok shared =>
    match createGame room.gameMode room.wordList 6 pick with
    | .error e => .error e
    | .ok proto =>
      let indiv := proto.assignAnswerField shared.answerField
      let actives := room.players.filter (fun e => decide (e.2.status ≠ .disconnected))
      .ok { room with
            currentRound := room.currentRound + 1
            sharedGame := some shared
            playerGames := actives.map (fun e => (e.1, indiv))
            players := room.players.map (fun e =>
              if e.2.status ≠ .disconnected then
                (e.1, { e.2 with guesses := [], status := .playing, readyForNextRound := false })
              else e)
            gameState := .playing
            lastActivity := now }

/-- `MultiplayerGame.endRound`: after 5 rounds finish the game, otherwise
start the next round. -/
def endRound (room : Room) (pick now : Nat) : Except String Room :=
  if room.currentRound ≥ 5 then .ok (endGame room now)
  else startNewRound room pick now

/-- `MultiplayerGame.checkRoundEnd`: end the round only when no player has
status PLAYING. -/
def checkRoundEnd (room : Room) (pick now : Nat) : Except String Room :=
  if (room.players.filter (fun e => decide (e.2.status = .playing))).length = 0 then
    endRound room pick now
  else .ok room

/-- `MultiplayerGame.checkAllPlayersReady`: advance as soon as every
FINISHED player is ready (and at least one player is FINISHED) — no check
that other players are done. -/
def checkAllPlayersReady (room : Room) (pick now : Nat) : Except String Room :=
  let finished := room.players.filter (fun e => decide (e.2.status = .finished))
  if finished.all (fun e => e.2.readyForNextRound) ∧ finished.length > 0 then
    endRound room pick now
  else .ok room

/-- `MultiplayerGame.markReadyForNextRound`. -/
def markReadyForNextRound (room : Room) (socketId : String) (pick now : Nat) :
    Except String Room :=
  match getPlayerBySocketId room socketId with
  | none => .error "Player not found"
  | some (pid, player) =>
    if player.status ≠ .finished then .error "Player must finish current round first"
    else
      let room' := { room with
        players := alistUpdate room.players pid
          (fun p => { p with readyForNextRound := true }) }
      checkAllPlayersReady room' pick now

/-- `MultiplayerGame.makeGuess`: resolve the player by socket, check room
and player state, delegate to the player's own game instance, log the guess,
award points and mark FINISHED on a terminal result, then check for round
end. -/
def roomMakeGuess (room : Room) (socketId : String) (guess : List Char)
    (pick now : Nat) : Except String (Room × GuessResult) :=
  match getPlayerBySocketId room socketId with
  | none => .error "Player not found"
  | some (pid, player) =>
    if room.gameState ≠ .playing then .error "Game not in progress"
    else if player.status ≠ .playing then .error "Player not active"
    else
      match alistGet room.playerGames pid with
      | none => .error "Player game not found"
      | some playerGame =>
        match validateGuess guess with
        | some reason => .ok (room, { valid := false, reason := some reason })
        | none =>
          match playerGame.makeGuess guess with
          | .error e => .error e
          | .ok (playerGame', result) =>
            let room1 := { room with
              playerGames := alistSet room.playerGames pid playerGame' }
            if result.valid then
              let room2 := { room1 with
                players := alistUpdate room1.players pid (fun p =>
                  { p with guesses := p.guesses ++
                      [({ guess := guess.map Char.toUpper
                          feedback := result.feedback
                          round := room1.currentRound } : RoomGuess)] }) }
              if result.status = some .win then
                let room3 := { room2 with
                  players := alistUpdate room2.players pid (fun p =>
                    { p with
                      score := p.score +
                        calculateScorePoints ((result.guesses.getD []).length),
                      status := .finished }) }
                (checkRoundEnd room3 pick now).map
                  (fun r => ({ r with lastActivity := now }, result))
              else if result.status = some .lose then
                let room3 := { room2 with
                  players := alistUpdate room2.players pid (fun p =>
                    { p with status := .finished }) }
                (checkRoundEnd room3 pick now).map
                  (fun r => ({ r with lastActivity := now }, result))
              else .ok ({ room2 with lastActivity := now }, result)
            else .ok (room1, result)

end Wordle

namespace Wordle

/-- Socket-rebinding steps of `updatePlayerSocketId`: delete the first old
socket bound to the player (if any), clear a conflicting binding of the new
socket when its player still exists, then bind the new socket. -/
def rebindSocket (s2p : List (String × String)) (players : List (String × Player))
    (pid newSocketId : String) : List (String × String) :=
  let s1 := match s2p.find? (fun e => decide (e.2 = pid)) with
    | some old => alistDelete s2p old.1
    | none => s2p
  let s2 := match alistGet s1 newSocketId with
    | some conflictPid =>
      match alistGet players conflictPid with
      | some _ => alistDelete s1 newSocketId
      | none => s1
    | none => s1
  alistSet s2 newSocketId pid

/-- `MultiplayerGame.updatePlayerSocketId` (reconnection by display name):
take the *first* player whose name matches (no ambiguity error), return
`false` (modelled `none`) only when no name matches, silently replace an
existing live socket binding, refresh `lastSeen`, and restore a
DISCONNECTED player to READY (room WAITING) or PLAYING (room PLAYING,
creating a fresh game instance over the shared answer if missing —
`Except.error` models the JS exceptions of that branch). -/
def updatePlayerSocketId (room : Room) (playerName newSocketId : String)
    (pick now : Nat) : Except String (Option Room) :=
  match room.players.find? (fun e => decide (e.2.name = playerName)) with
  | none => .ok none
  | some entry =>
    let pid := entry.1
    let room1 := { room with
      socketToPlayer := rebindSocket room.socketToPlayer room.players pid newSocketId
      players := alistUpdate room.players pid (fun p => { p with lastSeen := now }) }
    match alistGet room1.players pid with
    | none => .ok (some room1)
    | some p =>
      if p.status = .disconnected then
        if room1.gameState = .waiting then
          .ok (some { room1 with
            players := alistUpdate room1.players pid
              (fun q => { q with status := .ready }) })
        else if room1.gameState = .playing then
          match alistGet room1.playerGames pid with
          | some _ =>
            .ok (some { room1 with
              players := alistUpdate room1.players pid
                (fun q => { q with status := .playing }) })
          | none =>
            match room1.sharedGame with
            | none => .error "TypeError: Cannot read properties of null (reading 'answer')"
            | some sg =>
              match createGame room1.gameMode room1.wordList 6 pick with
              | .error e => .error e
              | .ok proto =>
                let gi := proto.assignAnswerField sg.answerField
                .ok (some { room1 with
                  playerGames := alistSet room1.playerGames pid gi
                  players := alistUpdate room1.players pid
                    (fun q => { q with status := .playing }) })
        else .ok (some room1)
      else .ok (some room1)

end Wordle

namespace Wordle

theorem alistGet_update {α : Type} (k : String) (f : α → α) :
    ∀ (m : List (String × α)), alistGet (alistUpdate m k f) k = (alistGet m k).map f := by
  intro m
  induction m with
  | nil => rfl
  | cons e rest ih =>
    by_cases he : e.1 = k
    · simp [alistGet, alistUpdate, List.find?, he]
    · simp only [alistGet, alistUpdate, List.map_cons, if_neg he] at ih ⊢
      rw [List.find?]
      rw [List.find?]
      simp only [he, decide_False]
      exact ih

theorem alistGet_eq_of_mem {α : Type} :
    ∀ (m : List (String × α)) (e : String × α),
      e ∈ m → (m.map Prod.fst).Nodup → alistGet m e.1 = some e.2 := by
  intro m
  induction m with
  | nil => intro e hmem; cases hmem
  | cons x rest ih =>
    intro e hmem hnd
    rcases List.mem_cons.mp hmem with rfl | hr
    · simp [alistGet, List.find?]
    · have hx : ¬ x.1 = e.1 := by
        intro he
        have hin : e.1 ∈ rest.map Prod.fst := List.mem_map_of_mem Prod.fst hr
        rw [List.map_cons] at hnd
        exact (List.nodup_cons.mp hnd).1 (he ▸ hin)
      have hnd' : (rest.map Prod.fst).Nodup := by
        rw [List.map_cons] at hnd
        exact (List.nodup_cons.mp hnd).2
      simp only [alistGet] at ih ⊢
      rw [List.find?]
      simp only [hx, decide_False]
      exact ih e hr hnd'

end Wordle

namespace Wordle

theorem createGame_normal_eq (wl : List Word) (mr pick : Nat) (h : wl ≠ []) :
    createGame .normal wl mr pick = .ok (.normal
      { wordList := wl.map (List.map Char.toUpper), maxRounds := mr,
        answer := (wl.map (List.map Char.toUpper)).getD
          (pick % (wl.map (List.map Char.toUpper)).length) [],
        guesses := [], status := .inProgress }) := by
  simp [createGame, NormalGame.new, h]
  rfl

theorem createGame_cheating_eq (wl : List Word) (mr pick : Nat) (h : wl ≠ []) :
    createGame .cheating wl mr pick = .ok (.cheating
      { wordList := wl.map (List.map Char.toUpper), maxRounds := mr,
        candidates := wl.map (List.map Char.toUpper), guesses := [],
        status := .inProgress, currentAnswer := none, answer := none }) := by
  simp [createGame, CheatingGame.new, h]
  rfl

theorem createGame_ok (mode : GameMode) (wl : List Word) (mr pick : Nat) (h : wl ≠ []) :
    ∃ gi, createGame mode wl mr pick = .ok gi := by
  cases mode
  · exact ⟨_, createGame_normal_eq wl mr pick h⟩
  · exact ⟨_, createGame_cheating_eq wl mr pick h⟩

theorem alistGet_isSome_of_mem {α : Type} (m : List (String × α)) (k : String) (v : α)
    (h : (k, v) ∈ m) : (alistGet m k).isSome = true := by
  have hfind : (m.find? (fun e => decide (e.1 = k))).isSome = true := by
    rw [List.find?_isSome]
    exact ⟨(k, v), h, by simp⟩
  simp [alistGet, hfind]

/-- C5 (amended): in *normal* answer mode, every round entry (initial start
or round advance) creates one shared secret-answer context and gives every
non-disconnected player a fresh per-player session that is driven by the
same secret answer as the shared context, so all players of a round play
the same word.  (In cheating mode the shared context has no `.answer` and
the per-player adversarial sessions evolve independently — see the
counterexample.) -/
theorem claimC5_amended (room : Room) (pick now : Nat)
    (hmode : room.gameMode = .normal) (hwl : room.wordList ≠ []) :
    (room.gameState = .waiting → 2 ≤ room.players.length →
      ∃ room' ng, startGame room pick now = .ok room' ∧
        room'.sharedGame = some (.normal ng) ∧ ng.guesses = [] ∧ ng.status = .inProgress ∧
        (∀ pg ∈ room'.playerGames, pg.2 = GameInst.normal ng) ∧
        (∀ p ∈ room.players, p.2.status ≠ .disconnected →
          (alistGet room'.playerGames p.1).isSome = true)) ∧
    (∃ room' ng, startNewRound room pick now = .ok room' ∧
      room'.currentRound = room.currentRound + 1 ∧
      room'.sharedGame = some (.normal ng) ∧ ng.guesses = [] ∧ ng.status = .inProgress ∧
      (∀ pg ∈ room'.playerGames, pg.2 = GameInst.normal ng) ∧
      (∀ p ∈ room.players, p.2.status ≠ .disconnected →
        (alistGet room'.playerGames p.1).isSome = true)) := by
  constructor
  · intro hW h2
    rw [startGame, if_neg (by omega), if_neg (by simp [hW])]
    rw [hmode, createGame_normal_eq room.wordList 6 pick hwl]
    refine ⟨_, _, rfl, rfl, rfl, rfl, ?_, ?_⟩
    · intro pg hpg
      rw [List.mem_map] at hpg
      obtain ⟨a, _, rfl⟩ := hpg
      rfl
    · intro p hp hst
      apply alistGet_isSome_of_mem _ _ _
      exact List.mem_map_of_mem _ (List.mem_filter.mpr ⟨hp, by simpa using hst⟩)
  · rw [startNewRound]
    rw [hmode, createGame_normal_eq room.wordList 6 pick hwl]
    refine ⟨_, _, rfl, rfl, rfl, rfl, rfl, ?_, ?_⟩
    · intro pg hpg
      rw [List.mem_map] at hpg
      obtain ⟨a, _, rfl⟩ := hpg
      rfl
    · intro p hp hst
      apply alistGet_isSome_of_mem _ _ _
      exact List.mem_map_of_mem _ (List.mem_filter.mpr ⟨hp, by simpa using hst⟩)

/-- A player record as created by `addPlayer` modulo timestamps/flags, used
to build concrete room states. -/
def mkPlayer (pid pname : String) (st : PStatus) (host : Bool) : Player :=
  { id := pid, name := pname, score := 0, guesses := [], status := st,
    joinedAt := 0, isHost := host, readyForNextRound := false, lastSeen := 0 }

/-- A WAITING room holding exactly one player. -/
def onePlayerRoom : Room := { Room.new "R1" 4 .normal 0 with
  players := [("p1", mkPlayer "p1" "Alice" .ready true)]
  socketToPlayer := [("s1", "p1")] }

/-- A WAITING room holding exactly two players. -/
def twoPlayerRoom : Room := { Room.new "R2" 4 .normal 0 with
  players := [("p1", mkPlayer "p1" "Alice" .ready true),
              ("p2", mkPlayer "p2" "Bob" .ready false)]
  socketToPlayer := [("s1", "p1"), ("s2", "p2")] }

/-- Witness for the amended C5: starting the concrete two-player normal-mode
room gives every player a session over the shared answer. -/
theorem claimC5_witness :
    ∃ room' ng, startGame twoPlayerRoom 0 0 = .ok room' ∧
      room'.sharedGame = some (.normal ng) ∧ ng.guesses = [] ∧ ng.status = .inProgress ∧
      (∀ pg ∈ room'.playerGames, pg.2 = GameInst.normal ng) ∧
      (∀ p ∈ twoPlayerRoom.players, p.2.status ≠ .disconnected →
        (alistGet room'.playerGames p.1).isSome = true) :=
  (claimC5_amended twoPlayerRoom 0 0 rfl (by decide)).1 rfl (by decide)

/-- The secret a player's session is actually driven by: the fixed answer of
a normal game, or the dynamically selected `currentAnswer` of a cheating
game. -/
def gameCurrentAnswer : GameInst → Option Word
  | .normal g => some g.answer
  | .cheating g => g.currentAnswer

/-- Cheating-mode room, two players, one round: Alice guesses HELLO, Bob
guesses QUITE. -/
def c5Run : Except String Room :=
  (addPlayer (Room.new "C5" 4 .cheating 0) "s1" "Alice" "p1" 0).bind (fun r1 =>
    (addPlayer r1.1 "s2" "Bob" "p2" 0).bind (fun r2 =>
      (startGame r2.1 0 0).bind (fun r3 =>
        (roomMakeGuess r3 "s1" (w "HELLO") 0 0).bind (fun r4 =>
          (roomMakeGuess r4.1 "s2" (w "QUITE") 0 0).map Prod.fst))))

/-- C5 counterexample: in cheating mode the shared context carries no answer
(`answerField = none`) and, within the same round, Alice's session is driven
by `FANCY` while Bob's is driven by `WORLD` — the players are not playing
the same word. -/
theorem claimC5_counterexample :
    c5Run.map (fun r => r.currentRound) = .ok 1 ∧
    c5Run.map (fun r => (alistGet r.playerGames "p1").map gameCurrentAnswer)
      = .ok (some (some (w "FANCY"))) ∧
    c5Run.map (fun r => (alistGet r.playerGames "p2").map gameCurrentAnswer)
      = .ok (some (some (w "WORLD"))) ∧
    c5Run.map (fun r => r.sharedGame.map GameInst.answerField) = .ok (some none) ∧
    w "FANCY" ≠ w "WORLD" := by
  decide

/-- Normal-mode room with answer `HELLO` (pick 0): Alice and Bob join, the
game starts, Alice wins with her first guess while Bob has not guessed. -/
def c6Mid : Except String Room :=
  (addPlayer (Room.new "C6" 4 .normal 0) "s1" "Alice" "p1" 0).bind (fun r1 =>
    (addPlayer r1.1 "s2" "Bob" "p2" 0).bind (fun r2 =>
      (startGame r2.1 0 0).bind (fun r3 =>
        (roomMakeGuess r3 "s1" (w "HELLO") 0 0).map Prod.fst)))

/-- ... then Alice marks herself ready for the next round. -/
def c6Run : Except String Room :=
  c6Mid.bind (fun r4 => markReadyForNextRound r4 "s1" 0 0)

/-- C6 (code bug): with Bob still PLAYING in round 1, Alice (the only
FINISHED player) marking ready triggers `checkAllPlayersReady` →
`endRound` → `startNewRound`: the room advances to round 2 while a
non-disconnected player was still PLAYING, and Bob's in-progress round is
reset. -/
theorem claimC6_bug :
    c6Mid.map (fun r => r.currentRound) = .ok 1 ∧
    c6Mid.map (fun r => (alistGet r.players "p1").map Player.status) = .ok (some .finished) ∧
    c6Mid.map (fun r => (alistGet r.players "p2").map Player.status) = .ok (some .playing) ∧
    c6Run.map (fun r => r.currentRound) = .ok 2 ∧
    c6Run.map (fun r => r.gameState) = .ok .playing ∧
    c6Run.map (fun r => (alistGet r.players "p2").map Player.status) = .ok (some .playing) := by
  decide

/-- C8: in a WAITING room (with the constructor's non-empty word list),
`startGame` with exactly one player fails with the need-2-players
`StateError` and performs no transition, while with two or more players it
succeeds, sets the room PLAYING and `currentRound` to 1. -/
theorem claimC8 (room : Room) (pick now : Nat)
    (hW : room.gameState = .waiting) (hwl : room.wordList ≠ []) :
    (room.players.length = 1 →
      startGame room pick now = .error "Need at least 2 players to start") ∧
    (2 ≤ room.players.length →
      ∃ room', startGame room pick now = .ok room' ∧
        room'.gameState = .playing ∧ room'.currentRound = 1) := by
  constructor
  · intro h1
    rw [startGame, if_pos (by omega)]
  · intro h2
    rw [startGame, if_neg (by omega), if_neg (by simp [hW])]
    obtain ⟨sh, hsh⟩ := createGame_ok room.gameMode room.wordList 6 pick hwl
    rw [hsh]
    exact ⟨_, rfl, rfl, rfl⟩

/-- Witness for C8 at concrete one- and two-player WAITING rooms. -/
theorem claimC8_witness :
    startGame onePlayerRoom 0 0 = .error "Need at least 2 players to start" ∧
    (∃ room', startGame twoPlayerRoom 0 0 = .ok room' ∧
      room'.gameState = .playing ∧ room'.currentRound = 1) :=
  ⟨(claimC8 onePlayerRoom 0 0 rfl (by decide)).1 rfl,
   (claimC8 twoPlayerRoom 0 0 rfl (by decide)).2 (by decide)⟩

end Wordle
namespace Wordle

theorem alistGet_append_last {α : Type} (k : String) (v : α) :
    ∀ (m : List (String × α)), (∀ e ∈ m, ¬ e.1 = k) →
      alistGet (m ++ [(k, v)]) k = some v := by
  intro m
  induction m with
  | nil => intro _; simp [alistGet, List.find?]
  | cons e rest ih =>
    intro h
    have he := h e (List.mem_cons_self _ _)
    simp only [List.cons_append, alistGet, List.find?, he, decide_False]
    exact ih (fun x hx => h x (List.mem_cons_of_mem _ hx))

theorem alistGet_mapset {α : Type} (k : String) (v : α) :
    ∀ (m : List (String × α)), m.any (fun e => decide (e.1 = k)) = true →
      alistGet (m.map (fun e => if e.1 = k then (k, v) else e)) k = some v := by
  intro m
  induction m with
  | nil => intro h; cases h
  | cons e rest ih =>
    intro h
    by_cases he : e.1 = k
    · simp [alistGet, List.find?, he]
    · rw [List.any_cons] at h
      simp only [he, decide_False, Bool.false_or] at h
      simp only [alistGet] at ih ⊢
      rw [List.map_cons, if_neg he]
      rw [List.find?]
      simp only [he, decide_False]
      exact ih h

theorem alistGet_set_self {α : Type} (k : String) (v : α) (m : List (String × α)) :
    alistGet (alistSet m k v) k = some v := by
  by_cases hany : m.any (fun e => decide (e.1 = k)) = true
  · rw [alistSet, if_pos hany]
    exact alistGet_mapset k v m hany
  · rw [alistSet, if_neg hany]
    apply alistGet_append_last
    intro e he hek
    exact hany (List.any_eq_true.mpr ⟨e, he, by simpa using hek⟩)

/-- C7 (amended): reconnection matches the *first* player whose display
name equals the supplied name; it returns false (`none`, room unchanged)
exactly when no player has that name — an ambiguous name silently resolves
to the first match and an existing live socket binding is silently replaced
rather than rejected (no distinct errors exist).  Only a DISCONNECTED first
match has its status restored: to READY when the room is WAITING, and to
PLAYING when the room is PLAYING — keeping its existing session, or lazily
creating a fresh one when missing (given the shared game context and a
non-empty word list, both invariants of a PLAYING room); a non-disconnected
match only gets its lastSeen refreshed. -/
theorem claimC7_amended (room : Room) (name sid : String) (pick now : Nat)
    (hnd : (room.players.map Prod.fst).Nodup) :
    (room.players.find? (fun e => decide (e.2.name = name)) = none →
      updatePlayerSocketId room name sid pick now = .ok none) ∧
    (∀ e, room.players.find? (fun e => decide (e.2.name = name)) = some e →
      updatePlayerSocketId room name sid pick now ≠ .ok none) ∧
    (∀ e, room.players.find? (fun e => decide (e.2.name = name)) = some e →
      e.2.status = .disconnected → room.gameState = .waiting →
      ∃ room', updatePlayerSocketId room name sid pick now = .ok (some room') ∧
        alistGet room'.players e.1 = some { e.2 with lastSeen := now, status := .ready }) ∧
    (∀ e, room.players.find? (fun e => decide (e.2.name = name)) = some e →
      e.2.status = .disconnected → room.gameState = .playing →
      (alistGet room.playerGames e.1).isSome = true →
      ∃ room', updatePlayerSocketId room name sid pick now = .ok (some room') ∧
        alistGet room'.players e.1 = some { e.2 with lastSeen := now, status := .playing } ∧
        room'.playerGames = room.playerGames) ∧
    (∀ e, room.players.find? (fun e => decide (e.2.name = name)) = some e →
      e.2.status = .disconnected → room.gameState = .playing →
      alistGet room.playerGames e.1 = none →
      ∀ sg, room.sharedGame = some sg → room.wordList ≠ [] →
      ∃ room', updatePlayerSocketId room name sid pick now = .ok (some room') ∧
        alistGet room'.players e.1 = some { e.2 with lastSeen := now, status := .playing } ∧
        (alistGet room'.playerGames e.1).isSome = true) ∧
    (∀ e, room.players.find? (fun e => decide (e.2.name = name)) = some e →
      e.2.status ≠ .disconnected →
      ∃ room', updatePlayerSocketId room name sid pick now = .ok (some room') ∧
        alistGet room'.players e.1 = some { e.2 with lastSeen := now } ∧
        room'.playerGames = room.playerGames) := by
  refine ⟨?_, ?_, ?_, ?_, ?_, ?_⟩
  · intro hfind
    simp only [updatePlayerSocketId, hfind]
  · intro e hfind
    have hget : alistGet room.players e.1 = some e.2 :=
      alistGet_eq_of_mem room.players e (List.mem_of_find?_eq_some hfind) hnd
    have hget1 : alistGet (alistUpdate room.players e.1
        (fun p => { p with lastSeen := now })) e.1
        = some { e.2 with lastSeen := now } := by
      rw [alistGet_update, hget]; rfl
    simp only [updatePlayerSocketId, hfind, hget1]
    split
    · split
      · simp
      · split
        · split
          · simp
          · split
            · simp
            · split
              · simp
              · simp
        · simp
    · simp
  · intro e hfind hdis hW
    have hget : alistGet room.players e.1 = some e.2 :=
      alistGet_eq_of_mem room.players e (List.mem_of_find?_eq_some hfind) hnd
    have hget1 : alistGet (alistUpdate room.players e.1
        (fun p => { p with lastSeen := now })) e.1
        = some { e.2 with lastSeen := now } := by
      rw [alistGet_update, hget]; rfl
    simp only [updatePlayerSocketId, hfind, hget1, hdis, hW]
    simp only [reduceIte]
    refine ⟨_, rfl, ?_⟩
    rw [alistGet_update, hget1]
    rfl
  · intro e hfind hdis hP hpg
    have hget : alistGet room.players e.1 = some e.2 :=
      alistGet_eq_of_mem room.players e (List.mem_of_find?_eq_some hfind) hnd
    have hget1 : alistGet (alistUpdate room.players e.1
        (fun p => { p with lastSeen := now })) e.1
        = some { e.2 with lastSeen := now } := by
      rw [alistGet_update, hget]; rfl
    obtain ⟨gi, hgi⟩ := Option.isSome_iff_exists.mp hpg
    simp only [updatePlayerSocketId, hfind, hget1, hdis, hP, hgi]
    simp only [reduceIte]
    refine ⟨_, rfl, ?_, rfl⟩
    rw [alistGet_update, hget1]
    rfl
  · intro e hfind hdis hP hpgnone sg hsg hwl
    have hget : alistGet room.players e.1 = some e.2 :=
      alistGet_eq_of_mem room.players e (List.mem_of_find?_eq_some hfind) hnd
    have hget1 : alistGet (alistUpdate room.players e.1
        (fun p => { p with lastSeen := now })) e.1
        = some { e.2 with lastSeen := now } := by
      rw [alistGet_update, hget]; rfl
    obtain ⟨gi, hgi⟩ := createGame_ok room.gameMode room.wordList 6 pick hwl
    simp only [updatePlayerSocketId, hfind, hget1, hdis, hP, hpgnone, hsg, hgi]
    simp only [reduceIte]
    refine ⟨_, rfl, ?_, ?_⟩
    · rw [alistGet_update, hget1]
      rfl
    · rw [alistGet_set_self]
      rfl
  · intro e hfind hndis
    have hget : alistGet room.players e.1 = some e.2 :=
      alistGet_eq_of_mem room.players e (List.mem_of_find?_eq_some hfind) hnd
    have hget1 : alistGet (alistUpdate room.players e.1
        (fun p => { p with lastSeen := now })) e.1
        = some { e.2 with lastSeen := now } := by
      rw [alistGet_update, hget]; rfl
    simp only [updatePlayerSocketId, hfind, hget1]
    rw [if_neg hndis]
    exact ⟨_, rfl, hget1, rfl⟩

end Wordle

namespace Wordle

/-- A WAITING room whose single player Alice is disconnected. -/
def discRoom : Room := { Room.new "R7" 4 .normal 0 with
  players := [("p1", mkPlayer "p1" "Alice" .disconnected true)] }

/-- A shared-game state as produced by starting a normal-mode round. -/
def lazySharedGame : NormalGame :=
  { wordList := defaultWordList.map (List.map Char.toUpper), maxRounds := 6,
    answer := w "HELLO", guesses := [], status := .inProgress }

/-- A PLAYING room whose disconnected player Alice has no session. -/
def lazyRoom : Room := { Room.new "R9" 4 .normal 0 with
  players := [("p1", mkPlayer "p1" "Alice" .disconnected true)]
  gameState := .playing
  currentRound := 1
  sharedGame := some (.normal lazySharedGame)
  playerGames := [] }

/-- A WAITING room whose player Alice is READY and bound to live socket s1. -/
def liveRoom : Room := { Room.new "R8" 4 .normal 0 with
  players := [("p1", mkPlayer "p1" "Alice" .ready true)]
  socketToPlayer := [("s1", "p1")] }

/-- Witness for the amended C7: reconnecting the disconnected Alice of a
WAITING room rebinds her and restores her to READY with a fresh lastSeen;
in a PLAYING room with her session missing, a session is lazily created and
she is restored to PLAYING; and a non-disconnected Alice keeps her status,
only lastSeen being refreshed. -/
theorem claimC7_witness :
    (∃ room', updatePlayerSocketId discRoom "Alice" "s2" 0 5 = .ok (some room') ∧
      alistGet room'.players "p1"
        = some { mkPlayer "p1" "Alice" .disconnected true with
                 lastSeen := 5, status := .ready }) ∧
    (∃ room', updatePlayerSocketId lazyRoom "Alice" "s2" 0 9 = .ok (some room') ∧
      alistGet room'.players "p1"
        = some { mkPlayer "p1" "Alice" .disconnected true with
                 lastSeen := 9, status := .playing } ∧
      (alistGet room'.playerGames "p1").isSome = true) ∧
    (∃ room', updatePlayerSocketId liveRoom "Alice" "s2" 0 7 = .ok (some room') ∧
      alistGet room'.players "p1"
        = some { mkPlayer "p1" "Alice" .ready true with lastSeen := 7 } ∧
      room'.playerGames = liveRoom.playerGames) :=
  ⟨(claimC7_amended discRoom "Alice" "s2" 0 5 (by decide)).2.2.1
    ("p1", mkPlayer "p1" "Alice" .disconnected true) (by decide) rfl rfl,
   (claimC7_amended lazyRoom "Alice" "s2" 0 9 (by decide)).2.2.2.2.1
    ("p1", mkPlayer "p1" "Alice" .disconnected true) (by decide) rfl rfl rfl
    (.normal lazySharedGame) rfl (by decide),
   (claimC7_amended liveRoom "Alice" "s2" 0 7 (by decide)).2.2.2.2.2
    ("p1", mkPlayer "p1" "Alice" .ready true) (by decide) (by decide)⟩

/-- C7 counterexample: Alice is already bound to the live connection s1,
yet reconnecting her by name is *accepted* — the old binding is silently
replaced by s2 instead of being rejected with a distinct error. -/
theorem claimC7_counterexample :
    liveRoom.socketToPlayer = [("s1", "p1")] ∧
    (updatePlayerSocketId liveRoom "Alice" "s2" 0 7).map
        (Option.map (fun r => r.socketToPlayer))
      = .ok (some [("s2", "p1")]) := by
  decide

end Wordle
